import Mathlib

/-!
# waybackurl: aggregation and de-duplication engine

A shallow embedding of `main.go` (package `main` of Jinone/waybackurl) and the
properties of its two de-duplication layers.

* A Go `string` is a finite sequence of bytes: `GoString := List UInt8`.
  `str` turns a literal into its UTF-8 bytes.
* The functions of the Go standard library whose code is not part of the
  program (`url.Parse`, `(*URL).Hostname`, `strings.ToLower`, `time.Parse` with
  `Time.Format`) are the fields of a parameter `Stdlib`; every general theorem
  holds for all of them.  `goLib` is a model of these functions on plain
  `scheme://host/path?query` URLs, used at concrete inputs.
* `crypto/md5` and `encoding/hex` are modelled exactly (RFC 1321).
* The package-level variable `ResultData` and the local map `seen` are threaded
  through the loop as explicit state; a run-time panic is `none`.
* The merged channel `wurls` is consumed in arrival order; the arrival
  sequence is an input of the consumer.
-/

namespace Waybackurl

/-! ## Strings -/

/-- A Go string: an immutable sequence of bytes. -/
abbrev GoString := List UInt8

/-- The bytes of a string literal (UTF-8, as in a Go source file). -/
def str (s : String) : GoString := s.toUTF8.data.toList

/-- Go `strings.Split(s, sep)` for a one-byte separator: the pieces of `s`
between the occurrences of `sep`; never empty (`Split("", sep)` is `[""]`). -/
def Split : GoString → UInt8 → List GoString
  | [], _ => [[]]
  | c :: cs, sep =>
    if c = sep then [] :: Split cs sep
    else
      match Split cs sep with
      | [] => [[c]]
      | piece :: pieces => (c :: piece) :: pieces

/-- Go `\d` of package regexp: the ASCII decimal digits. -/
def isDigit (c : UInt8) : Bool := decide (48 ≤ c.toNat) && decide (c.toNat ≤ 57)

/-- Scan of `reg.ReplaceAllString(s, "1")` for `reg = (\d+)`; `inRun` tells
that the previous byte belonged to the match being replaced. -/
def replaceDigitsFrom (inRun : Bool) : GoString → GoString
  | [] => []
  | c :: cs =>
    if isDigit c then
      if inRun then replaceDigitsFrom true cs
      else '1'.toUInt8 :: replaceDigitsFrom true cs
    else c :: replaceDigitsFrom false cs

/-- Go `regexp.MustCompile("(\\d+)").ReplaceAllString(s, "1")`: every leftmost
longest match of `\d+` is replaced by the one byte `1`. -/
def ReplaceAllDigits (s : GoString) : GoString := replaceDigitsFrom false s

/-! ## MD5 (crypto/md5, RFC 1321) and hex (encoding/hex) -/

/-- Per-round left-rotation amounts. -/
def md5Shifts : List Nat :=
  [7, 12, 17, 22, 7, 12, 17, 22, 7, 12, 17, 22, 7, 12, 17, 22,
   5, 9, 14, 20, 5, 9, 14, 20, 5, 9, 14, 20, 5, 9, 14, 20,
   4, 11, 16, 23, 4, 11, 16, 23, 4, 11, 16, 23, 4, 11, 16, 23,
   6, 10, 15, 21, 6, 10, 15, 21, 6, 10, 15, 21, 6, 10, 15, 21]

/-- The sine table: entry i is the integer part of 2^32 * |sin (i + 1)|. -/
def md5Table : List Nat :=
  [3614090360, 3905402710, 606105819, 3250441966, 4118548399, 1200080426,
   2821735955, 4249261313, 1770035416, 2336552879, 4294925233, 2304563134,
   1804603682, 4254626195, 2792965006, 1236535329, 4129170786, 3225465664,
   643717713, 3921069994, 3593408605, 38016083, 3634488961, 3889429448,
   568446438, 3275163606, 4107603335, 1163531501, 2850285829, 4243563512,
   1735328473, 2368359562, 4294588738, 2272392833, 1839030562, 4259657740,
   2763975236, 1272893353, 4139469664, 3200236656, 681279174, 3936430074,
   3572445317, 76029189, 3654602809, 3873151461, 530742520, 3299628645,
   4096336452, 1126891415, 2878612391, 4237533241, 1700485571, 2399980690,
   4293915773, 2240044497, 1873313359, 4264355552, 2734768916, 1309151649,
   4149444226, 3174756917, 718787259, 3951481745]

/-- Rotate a 32-bit word left by `s` bits. -/
def rotl32 (x s : Nat) : Nat := ((x <<< s) ||| (x >>> (32 - s))) % 2 ^ 32

/-- Bitwise complement of a 32-bit word. -/
def not32 (x : Nat) : Nat := (2 ^ 32 - 1) ^^^ (x % 2 ^ 32)

/-- The four chaining words of MD5. -/
structure Md5State where
  a : Nat
  b : Nat
  c : Nat
  d : Nat
deriving DecidableEq, Repr

/-- One of the 64 operations on the block with message words `m`. -/
def md5Step (m : List Nat) (st : Md5State) (i : Nat) : Md5State :=
  let f :=
    if i < 16 then (st.b &&& st.c) ||| (not32 st.b &&& st.d)
    else if i < 32 then (st.d &&& st.b) ||| (not32 st.d &&& st.c)
    else if i < 48 then st.b ^^^ st.c ^^^ st.d
    else st.c ^^^ (st.b ||| not32 st.d)
  let g :=
    if i < 16 then i
    else if i < 32 then (5 * i + 1) % 16
    else if i < 48 then (3 * i + 5) % 16
    else (7 * i) % 16
  let sum := (f + st.a + md5Table.getD i 0 + m.getD g 0) % 2 ^ 32
  { a := st.d, d := st.c, c := st.b, b := (st.b + rotl32 sum (md5Shifts.getD i 0)) % 2 ^ 32 }

/-- The 32-bit little-endian words of a byte sequence. -/
def leWords : List Nat → List Nat
  | b0 :: b1 :: b2 :: b3 :: rest =>
    (b0 + b1 * 2 ^ 8 + b2 * 2 ^ 16 + b3 * 2 ^ 24) :: leWords rest
  | _ => []

/-- Compression of one 64-byte block into the chaining state. -/
def md5Block (st : Md5State) (block : List Nat) : Md5State :=
  let r := (List.range 64).foldl (md5Step (leWords block)) st
  { a := (st.a + r.a) % 2 ^ 32, b := (st.b + r.b) % 2 ^ 32,
    c := (st.c + r.c) % 2 ^ 32, d := (st.d + r.d) % 2 ^ 32 }

/-- The `n` low-order bytes of `x`, least significant first. -/
def leBytes : Nat → Nat → List Nat
  | 0, _ => []
  | n + 1, x => x % 256 :: leBytes n (x / 256)

/-- The message followed by the padding: a 1 bit, zero bits up to 56 bytes
modulo 64, then the bit length as 64 bits. -/
def md5Pad (msg : List Nat) : List Nat :=
  msg ++ 128 :: List.replicate ((119 - msg.length % 64) % 64) 0
    ++ leBytes 8 ((msg.length * 8) % 2 ^ 64)

/-- Absorbs `n` consecutive 64-byte blocks. -/
def md5Blocks : Nat → Md5State → List Nat → Md5State
  | 0, st, _ => st
  | n + 1, st, bytes => md5Blocks n (md5Block st (bytes.take 64)) (bytes.drop 64)

/-- The 16-byte MD5 digest of a byte sequence. -/
def md5Sum (msg : GoString) : List Nat :=
  let padded := md5Pad (msg.map UInt8.toNat)
  let st := md5Blocks (padded.length / 64)
    { a := 1732584193, b := 4023233417, c := 2562383102, d := 271733878 } padded
  leBytes 4 st.a ++ leBytes 4 st.b ++ leBytes 4 st.c ++ leBytes 4 st.d

/-- One lower-case hexadecimal digit. -/
def hexDigit (n : Nat) : UInt8 := UInt8.ofNat (if n < 10 then 48 + n else 87 + n)

/-- Go `hex.EncodeToString`. -/
def hexEncode : List Nat → GoString
  | [] => []
  | b :: bs => hexDigit (b / 16) :: hexDigit (b % 16) :: hexEncode bs

/-- The source function `Md5`: hex of the MD5 digest of `content`. -/
def Md5 (content : GoString) : GoString := hexEncode (md5Sum content)

/-! ## The standard library as a parameter -/

/-- The fields of Go `url.URL` that the program reads. -/
structure URL where
  Host : GoString
  Path : GoString
  RawQuery : GoString
deriving DecidableEq, Repr

/-- The standard-library functions called by the program.
`Parse` is `url.Parse` (`none` when it returns an error), `Hostname` the
method `(*URL).Hostname`, `ToLower` is `strings.ToLower`, and `FormatDate d`
is `t.Format(time.RFC3339)` for `t, _ := time.Parse("20060102150405", d)`. -/
structure Stdlib where
  Parse : GoString → Option URL
  Hostname : URL → GoString
  ToLower : GoString → GoString
  FormatDate : GoString → GoString

/-! ## The program -/

/-- The source type `wurl`: one record of an archive. -/
structure wurl where
  date : GoString
  url : GoString
deriving DecidableEq, Repr

/-- The source type `Data`: the fingerprint record of a URL. -/
structure Data where
  Host : GoString
  Path : GoString
  QueryKey : List GoString
  Hash : GoString
deriving DecidableEq, Repr

/-- The expression `strings.Split(param, "=")[0]`.  `Split` never returns an
empty slice, so the index is in range and the first arm is not taken. -/
def firstSplit (param : GoString) : GoString :=
  match Split param '='.toUInt8 with
  | [] => []
  | key :: _ => key

/-- One iteration of the loop of `HandleUri` over the query parameters: the
state is `(data.QueryKey, hashString)`. -/
def addParam (acc : List GoString × GoString) (param : GoString) :
    List GoString × GoString :=
  let key := firstSplit param
  (acc.1 ++ [key], acc.2 ++ key)

/-- The values of `data.QueryKey` and `hashString` when the loop of `HandleUri`
ends, for a parsed URL `u`. -/
def paramLoop (u : URL) : List GoString × GoString :=
  (Split u.RawQuery '&'.toUInt8).foldl addParam ([], u.Host ++ ReplaceAllDigits u.Path)

/-- The source function `HandleUri`. -/
def HandleUri (lib : Stdlib) (uri : GoString) : Data :=
  match lib.Parse uri with
  | none => { Host := [], Path := [], QueryKey := [], Hash := [] }
  | some u =>
    let r := paramLoop u
    { Host := u.Host, Path := ReplaceAllDigits u.Path, QueryKey := r.1, Hash := Md5 r.2 }

/-- The source function `DeDuplication`, with the package variable
`ResultData` passed in and returned: the result and the new `ResultData`. -/
def DeDuplication (lib : Stdlib) (ResultData : List Data) (uri : GoString) :
    Bool × List Data :=
  let data := HandleUri lib uri
  if ResultData.any (fun item => item.Hash == data.Hash) then (true, ResultData)
  else (false, ResultData ++ [data])

/-- The source function `isSubdomain`. -/
def isSubdomain (lib : Stdlib) (rawUrl domain : GoString) : Bool :=
  match lib.Parse rawUrl with
  | none => false
  | some u => lib.ToLower (lib.Hostname u) != lib.ToLower domain

/-- The records one fetcher goroutine of `main` sends on `wurls`, in order;
`result` is what `fetch(domain, noSubs)` returned (`none` for an error). -/
def fetcherSends (lib : Stdlib) (noSubs : Bool) (domain : GoString)
    (result : Option (List wurl)) : List wurl :=
  match result with
  | none => []
  | some resp => resp.filter (fun r => !(noSubs && isSubdomain lib r.url domain))

/-- The denylist of the asset check of `main`. -/
def assetSuffixes : List GoString := [str "svg", str "css", str "jpg", str "png", str "gif"]

/-- The state of the consumer loop of `main`: the keys of the map `seen`, the
package variable `ResultData`, and the lines written to standard output. -/
structure LoopState where
  seen : List GoString
  ResultData : List Data
  stdout : List GoString
deriving DecidableEq, Repr

/-- The body of `for w := range wurls` in `main`; `none` is the run-time panic
of the slice expression `w.url[len(w.url)-3:]` with a negative bound. -/
def loopBody (lib : Stdlib) (dates : Bool) (st : LoopState) (w : wurl) : Option LoopState :=
  if w.url ∈ st.seen then some st
  else
    let st1 := { st with seen := w.url :: st.seen }
    if dates then
      some { st1 with stdout := st1.stdout ++ [lib.FormatDate w.date ++ ' '.toUInt8 :: w.url] }
    else if w.url.length < 3 then none
    else
      let ctype := w.url.drop (w.url.length - 3)
      if ctype ≠ str "svg" ∧ ctype ≠ str "css" ∧ ctype ≠ str "jpg" ∧ ctype ≠ str "png"
          ∧ ctype ≠ str "gif" then
        let r := DeDuplication lib st1.ResultData w.url
        if r.1 then some { st1 with ResultData := r.2 }
        else some { st1 with ResultData := r.2, stdout := st1.stdout ++ [w.url] }
      else some st1

/-- The consumer loop of `main` over the records received on `wurls`. -/
def consume (lib : Stdlib) (dates : Bool) (st : LoopState) (arrivals : List wurl) :
    Option LoopState :=
  arrivals.foldlM (loopBody lib dates) st

/-- One iteration of `for _, domain := range domains`: a new map `seen`, the
same `ResultData` and standard output, then the consumer loop. -/
def processDomain (lib : Stdlib) (dates : Bool) (g : List Data × List GoString)
    (arrivals : List wurl) : Option (List Data × List GoString) :=
  (consume lib dates { seen := [], ResultData := g.1, stdout := g.2 } arrivals).map
    (fun st => (st.ResultData, st.stdout))

/-- The domain loop of `main`, from the initial (nil) `ResultData`; the input
is the arrival sequence of each domain in turn, the result the lines printed. -/
def run (lib : Stdlib) (dates : Bool) (perDomain : List (List wurl)) : Option (List GoString) :=
  (perDomain.foldlM (processDomain lib dates) ([], [])).map Prod.snd

/-! ## A model of the standard library on plain URLs

The general theorems below hold for every `Stdlib`.  The concrete ones are
evaluated on `goLib`, which follows the code of Go `net/url` for URLs of the
form `scheme://host[:port]/path?query#fragment`.  URLs with a percent escape,
userinfo or a bracketed IP literal are outside the model. -/

/-- ASCII control bytes, rejected by `url.Parse`. -/
def isCTL (c : UInt8) : Bool := decide (c.toNat < 32) || decide (c.toNat = 127)

/-- ASCII letters. -/
def isAlpha (c : UInt8) : Bool :=
  (decide (97 ≤ c.toNat) && decide (c.toNat ≤ 122)) ||
  (decide (65 ≤ c.toNat) && decide (c.toNat ≤ 90))

/-- Go `strings.Cut(s, sep)` for a one-byte separator: the text before the
first `sep`, the text after it, and whether `sep` occurs. -/
def Cut : GoString → UInt8 → GoString × GoString × Bool
  | [], _ => ([], [], false)
  | c :: cs, sep =>
    if c = sep then ([], cs, true)
    else ((c :: (Cut cs sep).1), (Cut cs sep).2.1, (Cut cs sep).2.2)

/-- Loop of `getScheme` of `net/url` at index `i`, `rest` being `rawURL[i:]`. -/
def getSchemeFrom (rawURL : GoString) (i : Nat) : GoString → Option (GoString × GoString)
  | [] => some ([], rawURL)
  | c :: cs =>
    if isAlpha c then getSchemeFrom rawURL (i + 1) cs
    else if isDigit c || c = '+'.toUInt8 || c = '-'.toUInt8 || c = '.'.toUInt8 then
      if i = 0 then some ([], rawURL) else getSchemeFrom rawURL (i + 1) cs
    else if c = ':'.toUInt8 then
      if i = 0 then none else some (rawURL.take i, cs)
    else some ([], rawURL)

/-- The function `getScheme` of `net/url`: the scheme and the rest, or `none` for the
error "missing protocol scheme". -/
def getScheme (rawURL : GoString) : Option (GoString × GoString) :=
  getSchemeFrom rawURL 0 rawURL

/-- The function `validOptionalPort` of `net/url`. -/
def validOptionalPort : GoString → Bool
  | [] => true
  | c :: cs => c = ':'.toUInt8 && cs.all isDigit

/-- The text from the last `:` of `host` on, when there is one. -/
def fromLastColon (host : GoString) : Option GoString :=
  if (Cut host.reverse ':'.toUInt8).2.2 then
    some (':'.toUInt8 :: (Cut host.reverse ':'.toUInt8).1.reverse)
  else none

/-- Bytes that `net/url` accepts unescaped in a host. -/
def hostByte (c : UInt8) : Bool :=
  decide (128 ≤ c.toNat) || isAlpha c || isDigit c ||
    decide (c ∈ str "-_.~!$&()*+,;=:[]<>") || c = 39 || c = 34

/-- The function `parseHost` of `net/url` on a host that is not an IP literal. -/
def parseHost (host : GoString) : Option GoString :=
  match fromLastColon host with
  | some colonPort =>
    if validOptionalPort colonPort && host.all hostByte then some host else none
  | none => if host.all hostByte then some host else none

/-- Model of `url.Parse`. -/
def modelParse (rawURL : GoString) : Option URL :=
  if '%'.toUInt8 ∈ rawURL ∨ '@'.toUInt8 ∈ rawURL ∨ '['.toUInt8 ∈ rawURL then none
  else
    let u := (Cut rawURL '#'.toUInt8).1
    if u.any isCTL then none
    else if u = str "*" then some { Host := [], Path := str "*", RawQuery := [] }
    else
      match getScheme u with
      | none => none
      | some (scheme, rest0) =>
        let q : GoString × GoString :=
          if rest0.getLast? = some '?'.toUInt8 ∧ rest0.count '?'.toUInt8 = 1 then
            (rest0.dropLast, [])
          else ((Cut rest0 '?'.toUInt8).1, (Cut rest0 '?'.toUInt8).2.1)
        let rest := q.1
        if rest.head? ≠ some '/'.toUInt8 ∧ scheme ≠ [] then
          some { Host := [], Path := [], RawQuery := q.2 }
        else if rest.head? ≠ some '/'.toUInt8 ∧ ':'.toUInt8 ∈ (Cut rest '/'.toUInt8).1 then none
        else if (scheme ≠ [] ∨ ¬ (str "///").isPrefixOf rest) ∧ (str "//").isPrefixOf rest then
          let a := Cut (rest.drop 2) '/'.toUInt8
          match parseHost a.1 with
          | none => none
          | some host =>
            some { Host := host, Path := if a.2.2 then '/'.toUInt8 :: a.2.1 else [], RawQuery := q.2 }
        else some { Host := [], Path := rest, RawQuery := q.2 }

/-- Model of `(*URL).Hostname`: the host without a valid port and without
enclosing square brackets. -/
def modelHostname (u : URL) : GoString :=
  let host :=
    match fromLastColon u.Host with
    | some colonPort =>
      if validOptionalPort colonPort then u.Host.take (u.Host.length - colonPort.length)
      else u.Host
    | none => u.Host
  if host.head? = some '['.toUInt8 ∧ host.getLast? = some ']'.toUInt8 then
    (host.drop 1).dropLast
  else host

/-- Model of `strings.ToLower` on ASCII text. -/
def modelToLower (s : GoString) : GoString :=
  s.map (fun c => if 65 ≤ c.toNat ∧ c.toNat ≤ 90 then UInt8.ofNat (c.toNat + 32) else c)

/-- The decimal value of a sequence of ASCII digits. -/
def digitsValue (ds : GoString) : Nat := ds.foldl (fun n c => 10 * n + (c.toNat - 48)) 0

/-- Days of a month of the proleptic Gregorian calendar. -/
def daysIn (month year : Nat) : Nat :=
  if month = 2 then
    if year % 4 = 0 ∧ (year % 100 ≠ 0 ∨ year % 400 = 0) then 29 else 28
  else if month = 4 ∨ month = 6 ∨ month = 9 ∨ month = 11 then 30
  else 31

/-- Model of `time.Parse("20060102150405", d)` followed by
`Format(time.RFC3339)`: the timestamp re-punctuated, or the zero time when
parsing fails. -/
def modelFormatDate (d : GoString) : GoString :=
  let year := digitsValue (d.take 4)
  let month := digitsValue ((d.drop 4).take 2)
  let day := digitsValue ((d.drop 6).take 2)
  if d.length = 14 ∧ d.all isDigit ∧ 1 ≤ month ∧ month ≤ 12 ∧ 1 ≤ day ∧ day ≤ daysIn month year
      ∧ digitsValue ((d.drop 8).take 2) < 24 ∧ digitsValue ((d.drop 10).take 2) < 60
      ∧ digitsValue ((d.drop 12).take 2) < 60 then
    d.take 4 ++ '-'.toUInt8 :: (d.drop 4).take 2 ++ '-'.toUInt8 :: (d.drop 6).take 2
      ++ 'T'.toUInt8 :: (d.drop 8).take 2 ++ ':'.toUInt8 :: (d.drop 10).take 2
      ++ ':'.toUInt8 :: (d.drop 12).take 2 ++ str "Z"
  else str "0001-01-01T00:00:00Z"

/-- The model of the standard library used at concrete inputs. -/
def goLib : Stdlib :=
  { Parse := modelParse, Hostname := modelHostname, ToLower := modelToLower,
    FormatDate := modelFormatDate }

/-! ## Notions of the specification -/

/-- The text of a query segment before its first `=`; the whole segment when
it has none. -/
def keyText (seg : GoString) : GoString := seg.takeWhile (fun c => c != '='.toUInt8)

/-- Two paths that differ at most in the digits of their digit runs: the same
bytes outside the runs, and a non-empty run of digits in one wherever the other
has one. -/
inductive DigitVariant : GoString → GoString → Prop
  | nil : DigitVariant [] []
  | byte (c : UInt8) (p q : GoString) :
      isDigit c = false → DigitVariant p q → DigitVariant (c :: p) (c :: q)
  | run (d e p q : GoString) :
      d ≠ [] → e ≠ [] → (∀ x ∈ d, isDigit x = true) → (∀ x ∈ e, isDigit x = true) →
      DigitVariant p q → DigitVariant (d ++ p) (e ++ q)

/-- The sequence `zs` is an order-preserving interleaving of `xs` and `ys`:
every element of either exactly once, each list in its own order. -/
inductive Interleave {α : Type} : List α → List α → List α → Prop
  | nil : Interleave [] [] []
  | left (x : α) (xs ys zs : List α) : Interleave xs ys zs → Interleave (x :: xs) ys (x :: zs)
  | right (y : α) (xs ys zs : List α) : Interleave xs ys zs → Interleave xs (y :: ys) (y :: zs)

/-- The first occurrence of every distinct URL string, in arrival order: a
record is kept and the later records with its URL are left out. -/
def firstOccurrences : List wurl → List wurl
  | [] => []
  | w :: ws => w :: (firstOccurrences ws).filter (fun x => x.url != w.url)

/-- The line printed in date mode for a record. -/
def dateLine (lib : Stdlib) (w : wurl) : GoString :=
  lib.FormatDate w.date ++ ' '.toUInt8 :: w.url

/-- The registry after a sequence of further `DeDuplication` calls. -/
def afterCalls (lib : Stdlib) (ResultData : List Data) (uris : List GoString) : List Data :=
  uris.foldl (fun rd uri => (DeDuplication lib rd uri).2) ResultData

/-! ## The MD5 model on the test suite of RFC 1321 -/

theorem Md5_empty : Md5 [] = str "d41d8cd98f00b204e9800998ecf8427e" := by decide!

theorem Md5_abc : Md5 (str "abc") = str "900150983cd24fb0d6963f7d28e17f72" := by decide!

theorem Md5_two_blocks :
    Md5 (str "12345678901234567890123456789012345678901234567890123456789012345678901234567890")
      = str "57edf4a22be3c955ac49da2e2107b67a" := by decide!

/-! ## Splitting and the parameter loop -/

theorem Split_ne_nil (s : GoString) (sep : UInt8) : Split s sep ≠ [] := by
  cases s with
  | nil => simp [Split]
  | cons c cs =>
    simp only [Split]
    split
    · simp
    · split <;> simp

theorem Split_eq_splitOn (s : GoString) (sep : UInt8) : Split s sep = s.splitOn sep := by
  induction s with
  | nil => simp [Split, List.splitOn]
  | cons c cs ih =>
    have hs : (c :: cs).splitOn sep =
        if (c == sep) = true then [] :: cs.splitOn sep
        else List.modifyHead (List.cons c) (cs.splitOn sep) := by
      simp only [List.splitOn]
      exact List.splitOnP_cons _ c cs
    rw [hs, ← ih]
    simp only [Split, beq_iff_eq]
    split
    · rfl
    · cases hsp : Split cs sep with
      | nil => exact absurd hsp (Split_ne_nil cs sep)
      | cons piece pieces => rfl

theorem firstSplit_eq_keyText (param : GoString) : firstSplit param = keyText param := by
  unfold firstSplit keyText
  induction param with
  | nil => simp [Split]
  | cons c cs ih =>
    simp only [Split, List.takeWhile_cons]
    by_cases h : c = '='.toUInt8
    · simp [h]
    · simp only [h, if_false, bne_iff_ne, ne_eq, not_false_eq_true, decide_True, if_true]
      cases hsp : Split cs '='.toUInt8 with
      | nil => exact absurd hsp (Split_ne_nil cs _)
      | cons piece pieces =>
        rw [hsp] at ih
        simp only at ih
        simp [ih]

theorem foldl_addParam (params : List GoString) (acc : List GoString × GoString) :
    params.foldl addParam acc =
      (acc.1 ++ params.map firstSplit, acc.2 ++ (params.map firstSplit).flatten) := by
  induction params generalizing acc with
  | nil => simp
  | cons p ps ih => simp [ih, addParam]

theorem paramLoop_keys (u : URL) :
    (paramLoop u).1 = (Split u.RawQuery '&'.toUInt8).map firstSplit := by
  simp [paramLoop, foldl_addParam]

theorem paramLoop_digest (u : URL) :
    (paramLoop u).2 = u.Host ++ ReplaceAllDigits u.Path ++ (paramLoop u).1.flatten := by
  simp [paramLoop, foldl_addParam]

theorem HandleUri_of_parse (lib : Stdlib) (uri : GoString) (u : URL)
    (h : lib.Parse uri = some u) :
    HandleUri lib uri =
      { Host := u.Host, Path := ReplaceAllDigits u.Path, QueryKey := (paramLoop u).1,
        Hash := Md5 (paramLoop u).2 } := by
  simp [HandleUri, h]

theorem HandleUri_of_error (lib : Stdlib) (uri : GoString) (h : lib.Parse uri = none) :
    HandleUri lib uri = { Host := [], Path := [], QueryKey := [], Hash := [] } := by
  simp [HandleUri, h]

/-! ## The fingerprint registry -/

theorem DeDuplication_true_iff (lib : Stdlib) (rd : List Data) (uri : GoString) :
    (DeDuplication lib rd uri).1 = true ↔ ∃ item ∈ rd, item.Hash = (HandleUri lib uri).Hash := by
  unfold DeDuplication
  by_cases h : rd.any (fun item => item.Hash == (HandleUri lib uri).Hash) = true
  · simp only [h, if_true, true_iff]
    simpa using h
  · simp only [h, if_false]
    simp only [List.any_eq_true, beq_iff_eq] at h
    simp [h]

theorem DeDuplication_registry (lib : Stdlib) (rd : List Data) (uri : GoString) :
    (DeDuplication lib rd uri).2 =
      if (DeDuplication lib rd uri).1 = true then rd else rd ++ [HandleUri lib uri] := by
  unfold DeDuplication
  by_cases h : rd.any (fun item => item.Hash == (HandleUri lib uri).Hash) = true <;> simp [h]

theorem DeDuplication_extends (lib : Stdlib) (rd : List Data) (uri : GoString) :
    rd <+: (DeDuplication lib rd uri).2 := by
  rw [DeDuplication_registry]
  split
  · exact List.prefix_refl rd
  · exact List.prefix_append rd _

theorem DeDuplication_records (lib : Stdlib) (rd : List Data) (uri : GoString) :
    ∃ item ∈ (DeDuplication lib rd uri).2, item.Hash = (HandleUri lib uri).Hash := by
  rw [DeDuplication_registry]
  by_cases h : (DeDuplication lib rd uri).1 = true
  · simpa [h] using (DeDuplication_true_iff lib rd uri).1 h
  · simp only [h, if_false]
    exact ⟨HandleUri lib uri, by simp, rfl⟩

theorem afterCalls_extends (lib : Stdlib) (rd : List Data) (uris : List GoString) :
    rd <+: afterCalls lib rd uris := by
  induction uris generalizing rd with
  | nil => exact List.prefix_refl rd
  | cons u us ih =>
    exact (DeDuplication_extends lib rd u).trans (ih (DeDuplication lib rd u).2)

theorem duplicate_after (lib : Stdlib) (rd : List Data) (u v : GoString)
    (uris : List GoString) (hv : (HandleUri lib v).Hash = (HandleUri lib u).Hash) :
    (DeDuplication lib (afterCalls lib (DeDuplication lib rd u).2 uris) v).1 = true := by
  rw [DeDuplication_true_iff]
  obtain ⟨item, hmem, hhash⟩ := DeDuplication_records lib rd u
  exact ⟨item, (afterCalls_extends lib _ uris).subset hmem, hhash.trans hv.symm⟩

/-! ## The consumer loop -/

theorem loopBody_seen (lib : Stdlib) (dates : Bool) (st : LoopState) (w : wurl)
    (h : w.url ∈ st.seen) : loopBody lib dates st w = some st := by
  simp [loopBody, h]

theorem loopBody_dates (lib : Stdlib) (st : LoopState) (w : wurl) (h : w.url ∉ st.seen) :
    loopBody lib true st w =
      some { seen := w.url :: st.seen, ResultData := st.ResultData,
             stdout := st.stdout ++ [dateLine lib w] } := by
  simp [loopBody, h, dateLine]

theorem loopBody_short (lib : Stdlib) (st : LoopState) (w : wurl) (h : w.url ∉ st.seen)
    (hlen : w.url.length < 3) : loopBody lib false st w = none := by
  simp [loopBody, h, hlen]

theorem asset_iff_ctype (url : GoString) :
    (∃ ext ∈ assetSuffixes, ext <:+ url) ↔ url.drop (url.length - 3) ∈ assetSuffixes := by
  have h3 : ∀ ext ∈ assetSuffixes, ext.length = 3 := by decide
  constructor
  · rintro ⟨ext, hmem, hsuf⟩
    have := List.suffix_iff_eq_drop.1 hsuf
    rw [h3 ext hmem] at this
    rw [← this]
    exact hmem
  · intro hmem
    exact ⟨_, hmem, List.drop_suffix _ _⟩

theorem loopBody_asset (lib : Stdlib) (st : LoopState) (w : wurl) (h : w.url ∉ st.seen)
    (hlen : 3 ≤ w.url.length) (hext : ∃ ext ∈ assetSuffixes, ext <:+ w.url) :
    loopBody lib false st w = some { st with seen := w.url :: st.seen } := by
  have hc := (asset_iff_ctype w.url).1 hext
  have hlen2 : ¬ w.url.length < 3 := by omega
  simp only [assetSuffixes, List.mem_cons, List.mem_singleton, List.not_mem_nil, or_false] at hc
  simp only [loopBody, h, if_false, hlen2, Bool.false_eq_true]
  rw [if_neg]
  intro hne
  rcases hc with hc | hc | hc | hc | hc
  · exact hne.1 hc
  · exact hne.2.1 hc
  · exact hne.2.2.1 hc
  · exact hne.2.2.2.1 hc
  · exact hne.2.2.2.2 hc

theorem loopBody_fingerprint (lib : Stdlib) (st : LoopState) (w : wurl) (h : w.url ∉ st.seen)
    (hlen : 3 ≤ w.url.length) (hext : ¬ ∃ ext ∈ assetSuffixes, ext <:+ w.url) :
    loopBody lib false st w =
      some { seen := w.url :: st.seen,
             ResultData := (DeDuplication lib st.ResultData w.url).2,
             stdout := if (DeDuplication lib st.ResultData w.url).1 = true then st.stdout
                       else st.stdout ++ [w.url] } := by
  have hc := mt (asset_iff_ctype w.url).2 hext
  have hlen2 : ¬ w.url.length < 3 := by omega
  simp only [assetSuffixes, List.mem_cons, List.mem_singleton, List.not_mem_nil, or_false,
    not_or] at hc
  simp only [loopBody, h, if_false, hlen2, Bool.false_eq_true]
  rw [if_pos ⟨hc.1, hc.2.1, hc.2.2.1, hc.2.2.2.1, hc.2.2.2.2⟩]
  by_cases hd : (DeDuplication lib st.ResultData w.url).1 = true <;> simp [hd]

theorem consume_nil (lib : Stdlib) (dates : Bool) (st : LoopState) :
    consume lib dates st [] = some st := rfl

theorem consume_cons (lib : Stdlib) (dates : Bool) (st : LoopState) (w : wurl)
    (ws : List wurl) :
    consume lib dates st (w :: ws) = (loopBody lib dates st w).bind (fun st1 => consume lib dates st1 ws) := by
  simp [consume, List.foldlM_cons]

theorem run_single (lib : Stdlib) (dates : Bool) (s : List wurl) :
    run lib dates [s] =
      (consume lib dates { seen := [], ResultData := [], stdout := [] } s).map
        (fun st => st.stdout) := by
  simp only [run, List.foldlM_cons, List.foldlM_nil, processDomain]
  cases consume lib dates { seen := [], ResultData := [], stdout := [] } s <;> rfl

/-! ## Interleavings -/

theorem Interleave.mem_iff {α : Type} {xs ys zs : List α} (h : Interleave xs ys zs) (a : α) :
    a ∈ zs ↔ a ∈ xs ∨ a ∈ ys := by
  induction h with
  | nil => simp
  | left x xs ys zs _ ih => simp [ih, or_assoc]
  | right y xs ys zs _ ih => simp [ih, or_left_comm]

theorem interleave_two_one {α : Type} (x1 x2 y1 : α) (s : List α)
    (h : Interleave [x1, x2] [y1] s) :
    s = [x1, x2, y1] ∨ s = [x1, y1, x2] ∨ s = [y1, x1, x2] := by
  cases h with
  | left _ _ _ _ h1 =>
    cases h1 with
    | left _ _ _ _ h2 =>
      cases h2 with
      | right _ _ _ _ h3 => cases h3; simp
    | right _ _ _ _ h2 =>
      cases h2 with
      | left _ _ _ _ h3 => cases h3; simp
  | right _ _ _ _ h1 =>
    cases h1 with
    | left _ _ _ _ h2 =>
      cases h2 with
      | left _ _ _ _ h3 => cases h3; simp

/-! ## Two structural duplicates arriving from two fetchers -/

theorem duplicate_step (lib : Stdlib) (u1 u2 : GoString) (d1 : Data)
    (hh : (HandleUri lib u2).Hash = d1.Hash) (hl2 : 3 ≤ u2.length)
    (st : LoopState) (hrd : st.ResultData = [d1]) (hseen : u1 ∈ st.seen)
    (w : wurl) (hw : w.url = u1 ∨ w.url = u2) :
    ∃ st1, loopBody lib false st w = some st1 ∧ st1.ResultData = [d1] ∧
      st1.stdout = st.stdout ∧ u1 ∈ st1.seen := by
  by_cases hin : w.url ∈ st.seen
  · exact ⟨st, loopBody_seen lib false st w hin, hrd, rfl, hseen⟩
  · have hu : w.url = u2 := by
      rcases hw with hw | hw
      · exact absurd (hw ▸ hseen) hin
      · exact hw
    have hl : 3 ≤ w.url.length := hu ▸ hl2
    by_cases hext : ∃ ext ∈ assetSuffixes, ext <:+ w.url
    · exact ⟨_, loopBody_asset lib st w hin hl hext, hrd, rfl, List.mem_cons_of_mem _ hseen⟩
    · have hdup : (DeDuplication lib st.ResultData w.url).1 = true := by
        rw [DeDuplication_true_iff, hrd, hu]
        exact ⟨d1, by simp, hh.symm⟩
      refine ⟨_, loopBody_fingerprint lib st w hin hl hext, ?_, ?_, List.mem_cons_of_mem _ hseen⟩
      · show (DeDuplication lib st.ResultData w.url).2 = [d1]
        rw [DeDuplication_registry, if_pos hdup, hrd]
      · show (if (DeDuplication lib st.ResultData w.url).1 = true then st.stdout
          else st.stdout ++ [w.url]) = st.stdout
        rw [if_pos hdup]

theorem duplicate_rest (lib : Stdlib) (u1 u2 : GoString) (d1 : Data)
    (hh : (HandleUri lib u2).Hash = d1.Hash) (hl2 : 3 ≤ u2.length)
    (ws : List wurl) (hws : ∀ w ∈ ws, w.url = u1 ∨ w.url = u2)
    (st : LoopState) (hrd : st.ResultData = [d1]) (hseen : u1 ∈ st.seen) :
    ∃ st1, consume lib false st ws = some st1 ∧ st1.stdout = st.stdout := by
  induction ws generalizing st with
  | nil => exact ⟨st, rfl, rfl⟩
  | cons w ws ih =>
    obtain ⟨st1, hstep, hrd1, hout1, hseen1⟩ :=
      duplicate_step lib u1 u2 d1 hh hl2 st hrd hseen w (hws w (List.mem_cons_self w ws))
    obtain ⟨st2, hrest, hout2⟩ :=
      ih (fun x hx => hws x (List.mem_cons_of_mem w hx)) st1 hrd1 hseen1
    exact ⟨st2, by rw [consume_cons, hstep]; exact hrest, hout2.trans hout1⟩

theorem duplicate_output (lib : Stdlib) (u1 u2 : GoString)
    (hh : (HandleUri lib u2).Hash = (HandleUri lib u1).Hash)
    (hl1 : 3 ≤ u1.length) (hl2 : 3 ≤ u2.length)
    (hext : ¬ ∃ ext ∈ assetSuffixes, ext <:+ u1)
    (d : GoString) (ws : List wurl) (hws : ∀ w ∈ ws, w.url = u1 ∨ w.url = u2) :
    run lib false [{ date := d, url := u1 } :: ws] = some [u1] := by
  have hfirst := loopBody_fingerprint lib { seen := [], ResultData := [], stdout := [] }
    { date := d, url := u1 } (by simp) hl1 hext
  have hd : DeDuplication lib [] u1 = (false, [HandleUri lib u1]) := by simp [DeDuplication]
  simp only [hd, Bool.false_eq_true, if_false, List.nil_append] at hfirst
  obtain ⟨st1, hrest, hout⟩ := duplicate_rest lib u1 u2 (HandleUri lib u1) hh hl2 ws hws
    { seen := [u1], ResultData := [HandleUri lib u1], stdout := [u1] } rfl (by simp)
  rw [run_single, consume_cons, hfirst]
  simp only [Option.some_bind, hrest, Option.map_some', hout]

/-! ## Digit runs -/

theorem replace_true_digits (d p : GoString) (hd : ∀ x ∈ d, isDigit x = true) :
    replaceDigitsFrom true (d ++ p) = replaceDigitsFrom true p := by
  induction d with
  | nil => rfl
  | cons c cs ih =>
    have hc : isDigit c = true := hd c (List.mem_cons_self c cs)
    simp only [List.cons_append, replaceDigitsFrom, hc, if_true]
    exact ih (fun x hx => hd x (List.mem_cons_of_mem c hx))

theorem replace_false_digits (d p : GoString) (hne : d ≠ [])
    (hd : ∀ x ∈ d, isDigit x = true) :
    replaceDigitsFrom false (d ++ p) = '1'.toUInt8 :: replaceDigitsFrom true p := by
  cases d with
  | nil => exact absurd rfl hne
  | cons c cs =>
    have hc : isDigit c = true := hd c (List.mem_cons_self c cs)
    simp only [List.cons_append, replaceDigitsFrom, hc, if_true, Bool.false_eq_true, if_false]
    exact congrArg (List.cons '1'.toUInt8)
      (replace_true_digits cs p (fun x hx => hd x (List.mem_cons_of_mem c hx)))

theorem replace_true_of_no_digit (p : GoString) (hp : ∀ c ∈ p.head?, isDigit c = false) :
    replaceDigitsFrom true p = replaceDigitsFrom false p := by
  cases p with
  | nil => rfl
  | cons c cs =>
    have hc : isDigit c = false := hp c (by simp)
    simp [replaceDigitsFrom, hc]

theorem DigitVariant.replace_eq {p q : GoString} (h : DigitVariant p q) (inRun : Bool) :
    replaceDigitsFrom inRun p = replaceDigitsFrom inRun q := by
  induction h generalizing inRun with
  | nil => rfl
  | byte c p q hc _ ih => simp [replaceDigitsFrom, hc, ih false]
  | run d e p q hd he hdd hed _ ih =>
    cases inRun with
    | true => rw [replace_true_digits d p hdd, replace_true_digits e q hed, ih true]
    | false => rw [replace_false_digits d p hd hdd, replace_false_digits e q he hed, ih true]

theorem replace_true_dropWhile (p : GoString) :
    replaceDigitsFrom true p = replaceDigitsFrom false (p.dropWhile isDigit) := by
  induction p with
  | nil => rfl
  | cons c cs ih =>
    by_cases hc : isDigit c = true
    · simp [replaceDigitsFrom, List.dropWhile_cons, hc, ih]
    · simp [replaceDigitsFrom, List.dropWhile_cons, hc]

theorem digit_run_split (c : UInt8) (p : GoString) (hc : isDigit c = true) :
    c :: p = (c :: p.takeWhile isDigit) ++ p.dropWhile isDigit ∧
    (c :: p.takeWhile isDigit) ≠ [] ∧
    ∀ x ∈ c :: p.takeWhile isDigit, isDigit x = true := by
  refine ⟨by simp, by simp, ?_⟩
  intro x hx
  rcases List.mem_cons.1 hx with rfl | hx
  · exact hc
  · exact List.mem_takeWhile_imp hx

theorem DigitVariant_of_replace_eq (n : Nat) :
    ∀ p q : GoString, p.length ≤ n →
      replaceDigitsFrom false p = replaceDigitsFrom false q → DigitVariant p q := by
  have hone : isDigit '1'.toUInt8 = true := by decide
  induction n with
  | zero =>
    intro p q hlen heq
    have hp : p = [] := List.length_eq_zero.1 (Nat.le_zero.1 hlen)
    subst hp
    cases q with
    | nil => exact DigitVariant.nil
    | cons c cs =>
      by_cases hc : isDigit c = true <;> simp [replaceDigitsFrom, hc] at heq
  | succ n ih =>
    intro p q hlen heq
    cases p with
    | nil =>
      cases q with
      | nil => exact DigitVariant.nil
      | cons c cs =>
        by_cases hc : isDigit c = true <;> simp [replaceDigitsFrom, hc] at heq
    | cons c p =>
      have hlen1 : p.length ≤ n := by simpa using hlen
      cases q with
      | nil =>
        by_cases hc : isDigit c = true <;> simp [replaceDigitsFrom, hc] at heq
      | cons e q =>
        by_cases hc : isDigit c = true
        · by_cases he : isDigit e = true
          · simp only [replaceDigitsFrom, hc, he, if_true, Bool.false_eq_true, if_false,
              List.cons.injEq, true_and] at heq
            rw [replace_true_dropWhile p, replace_true_dropWhile q] at heq
            have hrest := ih (p.dropWhile isDigit) (q.dropWhile isDigit)
              (le_trans (List.dropWhile_suffix isDigit).length_le hlen1) heq
            obtain ⟨hp1, hp2, hp3⟩ := digit_run_split c p hc
            obtain ⟨hq1, hq2, hq3⟩ := digit_run_split e q he
            rw [hp1, hq1]
            exact DigitVariant.run _ _ _ _ hp2 hq2 hp3 hq3 hrest
          · simp only [replaceDigitsFrom, hc, he, if_true, Bool.false_eq_true, if_false,
              List.cons.injEq] at heq
            rw [← heq.1, hone] at he
            exact absurd rfl he
        · by_cases he : isDigit e = true
          · simp only [replaceDigitsFrom, hc, he, if_true, Bool.false_eq_true, if_false,
              List.cons.injEq] at heq
            rw [heq.1, hone] at hc
            exact absurd rfl hc
          · simp only [replaceDigitsFrom, hc, he, Bool.false_eq_true, if_false,
              List.cons.injEq] at heq
            rw [← heq.1]
            exact DigitVariant.byte c p q (by simpa using hc) (ih p q hlen1 heq.2)

theorem digitVariant_iff (p q : GoString) :
    DigitVariant p q ↔ ReplaceAllDigits p = ReplaceAllDigits q :=
  ⟨fun h => h.replace_eq false, DigitVariant_of_replace_eq p.length p q (le_refl _)⟩

/-! ## First occurrences and date mode -/

theorem firstOccurrences_sublist (ws : List wurl) : (firstOccurrences ws).Sublist ws := by
  induction ws with
  | nil => exact List.Sublist.slnil
  | cons w ws ih =>
    exact List.Sublist.cons₂ w ((List.filter_sublist _).trans ih)

theorem firstOccurrences_urls (ws : List wurl) (u : GoString) :
    u ∈ (firstOccurrences ws).map wurl.url ↔ u ∈ ws.map wurl.url := by
  induction ws with
  | nil => simp [firstOccurrences]
  | cons w ws ih =>
    simp only [firstOccurrences, List.map_cons, List.mem_cons]
    constructor
    · rintro (h | h)
      · exact Or.inl h
      · obtain ⟨x, hx, rfl⟩ := List.mem_map.1 h
        exact Or.inr (ih.1 (List.mem_map.2 ⟨x, (List.mem_filter.1 hx).1, rfl⟩))
    · rintro (h | h)
      · exact Or.inl h
      · by_cases hu : u = w.url
        · exact Or.inl hu
        · obtain ⟨x, hx, rfl⟩ := List.mem_map.1 (ih.2 h)
          exact Or.inr (List.mem_map.2 ⟨x, List.mem_filter.2 ⟨hx, by simpa using hu⟩, rfl⟩)

theorem firstOccurrences_nodup (ws : List wurl) :
    ((firstOccurrences ws).map wurl.url).Nodup := by
  induction ws with
  | nil => simp [firstOccurrences]
  | cons w ws ih =>
    simp only [firstOccurrences, List.map_cons]
    refine List.nodup_cons.2 ⟨?_, ih.sublist ((List.filter_sublist _).map _)⟩
    intro h
    obtain ⟨x, hx, hxu⟩ := List.mem_map.1 h
    have := (List.mem_filter.1 hx).2
    simp [hxu] at this

theorem mem_firstOccurrences_iff (ws : List wurl) (w : wurl) :
    w ∈ firstOccurrences ws ↔
      ∃ pre post, ws = pre ++ w :: post ∧ ∀ x ∈ pre, x.url ≠ w.url := by
  induction ws with
  | nil => simp [firstOccurrences]
  | cons v ws ih =>
    simp only [firstOccurrences, List.mem_cons, List.mem_filter]
    constructor
    · rintro (rfl | ⟨hmem, hne⟩)
      · exact ⟨[], ws, rfl, by simp⟩
      · obtain ⟨pre, post, rfl, hpre⟩ := ih.1 hmem
        refine ⟨v :: pre, post, rfl, ?_⟩
        intro x hx
        rcases List.mem_cons.1 hx with rfl | hx
        · intro h
          simp [h] at hne
        · exact hpre x hx
    · rintro ⟨pre, post, heq, hpre⟩
      cases pre with
      | nil =>
        simp only [List.nil_append, List.cons.injEq] at heq
        exact Or.inl heq.1.symm
      | cons p pre =>
        simp only [List.cons_append, List.cons.injEq] at heq
        obtain ⟨rfl, rfl⟩ := heq
        refine Or.inr ⟨ih.2 ⟨pre, post, rfl, fun x hx => hpre x (List.mem_cons_of_mem _ hx)⟩, ?_⟩
        have := hpre v (List.mem_cons_self _ _)
        simpa using fun h => this h.symm

theorem consume_dates (lib : Stdlib) (ws : List wurl) (st : LoopState) :
    consume lib true st ws =
      some { seen := (((firstOccurrences ws).filter (fun w => decide (w.url ∉ st.seen))).map
                       wurl.url).reverse ++ st.seen,
             ResultData := st.ResultData,
             stdout := st.stdout ++
               ((firstOccurrences ws).filter (fun w => decide (w.url ∉ st.seen))).map
                 (dateLine lib) } := by
  induction ws generalizing st with
  | nil => simp [consume_nil, firstOccurrences]
  | cons w ws ih =>
    rw [consume_cons]
    by_cases hin : w.url ∈ st.seen
    · have hf : ((firstOccurrences (w :: ws)).filter (fun x => decide (x.url ∉ st.seen)))
          = (firstOccurrences ws).filter (fun x => decide (x.url ∉ st.seen)) := by
        simp only [firstOccurrences, List.filter_cons, hin, not_true_eq_false, decide_False,
          Bool.false_eq_true, if_false, List.filter_filter]
        apply List.filter_congr
        intro x _
        by_cases hx : x.url ∈ st.seen
        · simp [hx]
        · have : x.url ≠ w.url := fun h => hx (h ▸ hin)
          simp [hx, this]
      rw [loopBody_seen lib true st w hin, Option.some_bind, ih st, hf]
    · have hf : ((firstOccurrences (w :: ws)).filter (fun x => decide (x.url ∉ st.seen)))
          = w :: (firstOccurrences ws).filter (fun x => decide (x.url ∉ w.url :: st.seen)) := by
        simp only [firstOccurrences, List.filter_cons, hin, not_false_eq_true, decide_True,
          if_true, List.filter_filter, List.cons.injEq, true_and]
        apply List.filter_congr
        intro x _
        by_cases hx : x.url ∈ st.seen <;> by_cases hxw : x.url = w.url <;> simp [hx, hxw]
      rw [loopBody_dates lib st w hin, Option.some_bind, ih, hf]
      simp

/-! ## Claims -/

/-- C1. Query-value insensitivity: two URLs that parse with the same Host and
Path and whose raw queries split on `&` into equally many segments with equal
text before the first `=` get the same Hash; so `DeDuplication` on the second
right after the first returns true from any registry; and when fetcher 1
returns the two and fetcher 2 the first again, every interleaving prints the
one line of the first URL in non-date mode. -/
theorem C1_query_value_insensitivity (lib : Stdlib) (u1 u2 : GoString) (a b : URL)
    (h1 : lib.Parse u1 = some a) (h2 : lib.Parse u2 = some b)
    (hHost : a.Host = b.Host) (hPath : a.Path = b.Path)
    (hq : List.Forall₂ (fun s t => keyText s = keyText t)
      (a.RawQuery.splitOn '&'.toUInt8) (b.RawQuery.splitOn '&'.toUInt8)) :
    (HandleUri lib u1).Hash = (HandleUri lib u2).Hash ∧
    (∀ rd : List Data, (DeDuplication lib (DeDuplication lib rd u1).2 u2).1 = true) ∧
    (3 ≤ u1.length → 3 ≤ u2.length → (¬ ∃ ext ∈ assetSuffixes, ext <:+ u1) →
      ∀ (d1 d2 d3 : GoString) (s : List wurl),
        Interleave [{ date := d1, url := u1 }, { date := d2, url := u2 }]
          [{ date := d3, url := u1 }] s →
        run lib false [s] = some [u1]) := by
  have hkeys : (paramLoop a).1 = (paramLoop b).1 := by
    rw [paramLoop_keys, paramLoop_keys, Split_eq_splitOn, Split_eq_splitOn]
    generalize a.RawQuery.splitOn '&'.toUInt8 = l1 at hq
    generalize b.RawQuery.splitOn '&'.toUInt8 = l2 at hq
    induction hq with
    | nil => rfl
    | cons hst _ ih =>
      simp only [List.map_cons, firstSplit_eq_keyText, hst, List.cons.injEq, true_and]
      simpa only [firstSplit_eq_keyText] using ih
  have hhash : (HandleUri lib u1).Hash = (HandleUri lib u2).Hash := by
    rw [HandleUri_of_parse lib u1 a h1, HandleUri_of_parse lib u2 b h2]
    simp only [paramLoop_digest, hHost, hPath, hkeys]
  refine ⟨hhash, fun rd => ?_, ?_⟩
  · simpa [afterCalls] using duplicate_after lib rd u1 u2 [] hhash.symm
  · intro hl1 hl2 hext d1 d2 d3 s hs
    rcases interleave_two_one _ _ _ s hs with rfl | rfl | rfl <;>
      exact duplicate_output lib u1 u2 hhash.symm hl1 hl2 hext _ _ (by simp)

/-- Witness of C1 on the model library: `http://a.com/x?id=1` and
`http://a.com/x?id=2` have one Hash, and for fetcher results
`[id=1, id=2]` and `[id=1]` every interleaving prints `http://a.com/x?id=1` only. -/
theorem C1_witness :
    (HandleUri goLib (str "http://a.com/x?id=1")).Hash
      = (HandleUri goLib (str "http://a.com/x?id=2")).Hash ∧
    (∀ s : List wurl,
      Interleave [{ date := str "20200101000000", url := str "http://a.com/x?id=1" },
                  { date := str "20200102000000", url := str "http://a.com/x?id=2" }]
        [{ date := str "20180101000000", url := str "http://a.com/x?id=1" }] s →
      run goLib false [s] = some [str "http://a.com/x?id=1"]) :=
  have h := C1_query_value_insensitivity goLib (str "http://a.com/x?id=1")
    (str "http://a.com/x?id=2")
    { Host := str "a.com", Path := str "/x", RawQuery := str "id=1" }
    { Host := str "a.com", Path := str "/x", RawQuery := str "id=2" }
    (by decide!) (by decide!) rfl rfl
    (by
      show List.Forall₂ _ [str "id=1"] [str "id=2"]
      exact List.Forall₂.cons (by decide!) List.Forall₂.nil)
  ⟨h.1, fun s hs => h.2.2 (by decide!) (by decide!) (by decide!) _ _ _ s hs⟩

/-- C2. Numeric path collapsing: `HandleUri` puts one `1` for every maximal
run of digits of the path and keeps the other bytes; for two URLs with the same
host and query keys, paths that differ only in the digits of their digit runs
give the same normalized Path and Hash, and paths that differ otherwise give
different normalized Paths and digest inputs; `/item/42/view` and
`/item/907/view` get one Hash, `/item/42/view` and `/item/42/edit` two. -/
theorem C2_numeric_path_collapsing (lib : Stdlib) (u1 u2 : GoString) (a b : URL)
    (h1 : lib.Parse u1 = some a) (h2 : lib.Parse u2 = some b)
    (hHost : a.Host = b.Host)
    (hKeys : (HandleUri lib u1).QueryKey = (HandleUri lib u2).QueryKey) :
    (HandleUri lib u1).Path = ReplaceAllDigits a.Path ∧
    ReplaceAllDigits [] = [] ∧
    (∀ (c : UInt8) (p : GoString), isDigit c = false →
      ReplaceAllDigits (c :: p) = c :: ReplaceAllDigits p) ∧
    (∀ d p : GoString, d ≠ [] → (∀ x ∈ d, isDigit x = true) →
      (∀ c ∈ p.head?, isDigit c = false) →
      ReplaceAllDigits (d ++ p) = '1'.toUInt8 :: ReplaceAllDigits p) ∧
    (DigitVariant a.Path b.Path →
      (HandleUri lib u1).Path = (HandleUri lib u2).Path ∧
      (HandleUri lib u1).Hash = (HandleUri lib u2).Hash) ∧
    (¬ DigitVariant a.Path b.Path →
      (HandleUri lib u1).Path ≠ (HandleUri lib u2).Path ∧
      (paramLoop a).2 ≠ (paramLoop b).2) ∧
    (HandleUri goLib (str "http://a.com/item/42/view")).Hash
      = (HandleUri goLib (str "http://a.com/item/907/view")).Hash ∧
    (HandleUri goLib (str "http://a.com/item/42/view")).Path
      ≠ (HandleUri goLib (str "http://a.com/item/42/edit")).Path ∧
    (HandleUri goLib (str "http://a.com/item/42/view")).Hash
      ≠ (HandleUri goLib (str "http://a.com/item/42/edit")).Hash := by
  rw [HandleUri_of_parse lib u1 a h1, HandleUri_of_parse lib u2 b h2] at hKeys
  simp only at hKeys
  rw [HandleUri_of_parse lib u1 a h1, HandleUri_of_parse lib u2 b h2]
  refine ⟨rfl, rfl, ?_, ?_, ?_, ?_, by decide!, by decide!, by decide!⟩
  · intro c p hc
    simp [ReplaceAllDigits, replaceDigitsFrom, hc]
  · intro d p hne hd hp
    unfold ReplaceAllDigits
    rw [replace_false_digits d p hne hd, replace_true_of_no_digit p hp]
  · intro hv
    have hp := (digitVariant_iff a.Path b.Path).1 hv
    exact ⟨hp, by simp only [paramLoop_digest, hHost, hp, hKeys]⟩
  · intro hv
    have hp : ReplaceAllDigits a.Path ≠ ReplaceAllDigits b.Path :=
      fun h => hv ((digitVariant_iff a.Path b.Path).2 h)
    refine ⟨hp, ?_⟩
    simp only [paramLoop_digest, hHost, hKeys]
    intro h
    exact hp (by simpa using h)

/-- Witness of C2 on the model library: `http://a.com/item/42/view` and
`http://a.com/item/907/view` differ only in the digits of one run, and get the
normalized Path `/item/1/view` and one Hash. -/
theorem C2_witness :
    DigitVariant (str "/item/42/view") (str "/item/907/view") ∧
    (HandleUri goLib (str "http://a.com/item/42/view")).Path = str "/item/1/view" ∧
    (HandleUri goLib (str "http://a.com/item/907/view")).Path = str "/item/1/view" ∧
    (HandleUri goLib (str "http://a.com/item/42/view")).Hash
      = (HandleUri goLib (str "http://a.com/item/907/view")).Hash :=
  have hv : DigitVariant (str "/item/42/view") (str "/item/907/view") :=
    (digitVariant_iff _ _).2 (by decide!)
  have h := C2_numeric_path_collapsing goLib (str "http://a.com/item/42/view")
    (str "http://a.com/item/907/view")
    { Host := str "a.com", Path := str "/item/42/view", RawQuery := [] }
    { Host := str "a.com", Path := str "/item/907/view", RawQuery := [] }
    (by decide!) (by decide!) rfl (by decide!)
  ⟨hv, h.1.trans (by decide!), ((h.2.2.2.2.1 hv).1.symm.trans h.1).trans (by decide!),
    (h.2.2.2.2.1 hv).2⟩

/-- C3. Idempotence and monotonic membership of the structural dedup: after
`DeDuplication u` the registry holds an entry with the Hash of `u`, it still
does after any further calls, and a later `DeDuplication u` returns true; from
a registry without that Hash the same URL gives false and then true; a call
keeps the registry as a prefix of the new one, so no entry is removed or
moved. -/
theorem C3_dedup_idempotent_monotonic (lib : Stdlib) (rd : List Data) (u : GoString)
    (uris : List GoString) :
    (∃ item ∈ (DeDuplication lib rd u).2, item.Hash = (HandleUri lib u).Hash) ∧
    (∃ item ∈ afterCalls lib (DeDuplication lib rd u).2 uris,
      item.Hash = (HandleUri lib u).Hash) ∧
    (DeDuplication lib (afterCalls lib (DeDuplication lib rd u).2 uris) u).1 = true ∧
    ((∀ item ∈ rd, item.Hash ≠ (HandleUri lib u).Hash) →
      (DeDuplication lib rd u).1 = false ∧
      (DeDuplication lib (DeDuplication lib rd u).2 u).1 = true) ∧
    rd <+: (DeDuplication lib rd u).2 ∧
    rd <+: afterCalls lib rd uris := by
  refine ⟨DeDuplication_records lib rd u, ?_, duplicate_after lib rd u u uris rfl, ?_,
    DeDuplication_extends lib rd u, afterCalls_extends lib rd uris⟩
  · obtain ⟨item, hmem, hhash⟩ := DeDuplication_records lib rd u
    exact ⟨item, (afterCalls_extends lib _ uris).subset hmem, hhash⟩
  · intro hnot
    constructor
    · cases hd : (DeDuplication lib rd u).1 with
      | false => rfl
      | true =>
        obtain ⟨item, hmem, hhash⟩ := (DeDuplication_true_iff lib rd u).1 hd
        exact absurd hhash (hnot item hmem)
    · simpa [afterCalls] using duplicate_after lib rd u u [] rfl

/-- Witness of C3 on the model library: from the empty registry
`http://a.com/x?id=1` is new, and a duplicate after two other URLs. -/
theorem C3_witness :
    (DeDuplication goLib [] (str "http://a.com/x?id=1")).1 = false ∧
    (DeDuplication goLib (DeDuplication goLib [] (str "http://a.com/x?id=1")).2
      (str "http://a.com/x?id=1")).1 = true ∧
    (DeDuplication goLib
      (afterCalls goLib (DeDuplication goLib [] (str "http://a.com/x?id=1")).2
        [str "http://a.com/y", str "http://b.org/"])
      (str "http://a.com/x?id=1")).1 = true :=
  have h := C3_dedup_idempotent_monotonic goLib [] (str "http://a.com/x?id=1")
    [str "http://a.com/y", str "http://b.org/"]
  ⟨(h.2.2.2.1 (by simp)).1, (h.2.2.2.1 (by simp)).2, h.2.2.1⟩

/-- C4. Exact dedup and date mode: for every interleaving `s` of the two
fetchers' lists, the date-mode loop from an empty `seen` ends with `seen`
holding the URLs of the first occurrences, leaves `ResultData` untouched and
prints exactly the first occurrence of each distinct URL in arrival order;
these URLs are without repetition and are those of the two lists; so
`http://a.com/x?id=1` and `http://a.com/x?id=2`, of one Hash, are both printed
and the repeat of the first is not. -/
theorem C4_exact_dedup_date_mode (lib : Stdlib) (A B s : List wurl) (rd : List Data)
    (out : List GoString) (hs : Interleave A B s) :
    consume lib true { seen := [], ResultData := rd, stdout := out } s =
      some { seen := ((firstOccurrences s).map wurl.url).reverse,
             ResultData := rd,
             stdout := out ++ (firstOccurrences s).map (dateLine lib) } ∧
    (firstOccurrences s).Sublist s ∧
    (∀ w, w ∈ firstOccurrences s ↔
      ∃ pre post, s = pre ++ w :: post ∧ ∀ x ∈ pre, x.url ≠ w.url) ∧
    ((firstOccurrences s).map wurl.url).Nodup ∧
    (∀ u, u ∈ (firstOccurrences s).map wurl.url ↔ u ∈ A.map wurl.url ∨ u ∈ B.map wurl.url) ∧
    (HandleUri goLib (str "http://a.com/x?id=1")).Hash
      = (HandleUri goLib (str "http://a.com/x?id=2")).Hash ∧
    run goLib true
      [[{ date := str "20200101000000", url := str "http://a.com/x?id=1" },
        { date := str "20200102000000", url := str "http://a.com/x?id=2" },
        { date := str "20180101000000", url := str "http://a.com/x?id=1" }]]
      = some [str "2020-01-01T00:00:00Z http://a.com/x?id=1",
              str "2020-01-02T00:00:00Z http://a.com/x?id=2"] := by
  refine ⟨?_, firstOccurrences_sublist s, mem_firstOccurrences_iff s, firstOccurrences_nodup s,
    ?_, by decide!, by decide!⟩
  · rw [consume_dates]
    simp
  · intro u
    rw [firstOccurrences_urls]
    simp only [List.mem_map]
    constructor
    · rintro ⟨w, hw, rfl⟩
      rcases (hs.mem_iff w).1 hw with h | h
      · exact Or.inl ⟨w, h, rfl⟩
      · exact Or.inr ⟨w, h, rfl⟩
    · rintro (⟨w, hw, rfl⟩ | ⟨w, hw, rfl⟩)
      · exact ⟨w, (hs.mem_iff w).2 (Or.inl hw), rfl⟩
      · exact ⟨w, (hs.mem_iff w).2 (Or.inr hw), rfl⟩

/-- Witness of C4 on the model library: fetcher 1 returns `id=1` then `id=2`,
fetcher 2 returns `id=1`, and they arrive as `id=1, id=1, id=2`. -/
theorem C4_witness :
    consume goLib true { seen := [], ResultData := [], stdout := [] }
      [{ date := str "20200101000000", url := str "http://a.com/x?id=1" },
       { date := str "20180101000000", url := str "http://a.com/x?id=1" },
       { date := str "20200102000000", url := str "http://a.com/x?id=2" }] =
      some { seen := [str "http://a.com/x?id=2", str "http://a.com/x?id=1"],
             ResultData := [],
             stdout := [str "2020-01-01T00:00:00Z http://a.com/x?id=1",
                        str "2020-01-02T00:00:00Z http://a.com/x?id=2"] } :=
  (C4_exact_dedup_date_mode goLib
    [{ date := str "20200101000000", url := str "http://a.com/x?id=1" },
     { date := str "20200102000000", url := str "http://a.com/x?id=2" }]
    [{ date := str "20180101000000", url := str "http://a.com/x?id=1" }]
    [{ date := str "20200101000000", url := str "http://a.com/x?id=1" },
     { date := str "20180101000000", url := str "http://a.com/x?id=1" },
     { date := str "20200102000000", url := str "http://a.com/x?id=2" }] [] []
    (Interleave.left _ _ _ _ (Interleave.right _ _ _ _ (Interleave.left _ _ _ _
      Interleave.nil)))).1.trans (by decide!)

/-- C5. The fingerprint registry is not reset between domains: when the
domains `a.com` and `www.a.com` are processed in one run and the archives
answer `http://www.a.com/x?id=1` for both, the second domain alone prints that
URL, and after the first domain it prints nothing, because `ResultData` still
holds the fingerprint recorded for the first domain. -/
theorem C5_registry_survives_domain :
    run goLib false [[{ date := [], url := str "http://www.a.com/x?id=1" }]]
      = some [str "http://www.a.com/x?id=1"] ∧
    run goLib false [[{ date := [], url := str "http://www.a.com/x?id=1" }],
                     [{ date := [], url := str "http://www.a.com/x?id=1" }]]
      = some [str "http://www.a.com/x?id=1"] ∧
    processDomain goLib false ([], [])
        [{ date := [], url := str "http://www.a.com/x?id=1" }]
      = some ([HandleUri goLib (str "http://www.a.com/x?id=1")],
              [str "http://www.a.com/x?id=1"]) ∧
    processDomain goLib false ([HandleUri goLib (str "http://www.a.com/x?id=1")], [])
        [{ date := [], url := str "http://www.a.com/x?id=1" }]
      = some ([HandleUri goLib (str "http://www.a.com/x?id=1")], []) := by
  refine ⟨by decide!, by decide!, by decide!, by decide!⟩

/-- C7. Subdomain filter: `isSubdomain` returns false exactly when the URL
fails to parse or the lower-cased hostname equals the lower-cased target
domain; with the no-subs flag a fetcher sends exactly the records on which it
returns false, so an unparseable URL is never dropped and `www.a.com` is
dropped for target `a.com`; without the flag every record is sent. -/
theorem C7_subdomain_filter (lib : Stdlib) (rawUrl domain : GoString) (resp : List wurl) :
    (isSubdomain lib rawUrl domain = false ↔
      lib.Parse rawUrl = none ∨
      ∃ u, lib.Parse rawUrl = some u ∧ lib.ToLower (lib.Hostname u) = lib.ToLower domain) ∧
    fetcherSends lib true domain (some resp)
      = resp.filter (fun r => !isSubdomain lib r.url domain) ∧
    (∀ r ∈ resp, lib.Parse r.url = none → r ∈ fetcherSends lib true domain (some resp)) ∧
    fetcherSends lib false domain (some resp) = resp ∧
    isSubdomain goLib (str "http://www.a.com/x") (str "a.com") = true ∧
    isSubdomain goLib (str "http://A.com:8080/x") (str "a.COM") = false ∧
    isSubdomain goLib (str "http://a b.com/") (str "a.com") = false := by
  refine ⟨?_, ?_, ?_, ?_, by decide!, by decide!, by decide!⟩
  · unfold isSubdomain
    cases hp : lib.Parse rawUrl with
    | none => simp
    | some u => simp
  · simp [fetcherSends]
  · intro r hr hp
    simp [fetcherSends, isSubdomain, hp, hr]
  · simp [fetcherSends]

/-- C8. Asset-suffix check in non-date mode, for a URL not seen before: the
loop body fails exactly when the URL is shorter than 3 bytes; for a URL of at
least 3 bytes ending in one of svg, css, jpg, png, gif nothing is printed and
`ResultData` is unchanged, and otherwise `DeDuplication` decides; date mode
prints the record whatever its length and ending. -/
theorem C8_asset_suffix_check (lib : Stdlib) (st : LoopState) (w : wurl)
    (hnew : w.url ∉ st.seen) :
    (loopBody lib false st w = none ↔ w.url.length < 3) ∧
    (3 ≤ w.url.length →
      ((∃ ext ∈ assetSuffixes, ext <:+ w.url) ↔ w.url.drop (w.url.length - 3) ∈ assetSuffixes) ∧
      ((∃ ext ∈ assetSuffixes, ext <:+ w.url) →
        loopBody lib false st w =
          some { seen := w.url :: st.seen, ResultData := st.ResultData,
                 stdout := st.stdout }) ∧
      ((¬ ∃ ext ∈ assetSuffixes, ext <:+ w.url) →
        loopBody lib false st w =
          some { seen := w.url :: st.seen,
                 ResultData := (DeDuplication lib st.ResultData w.url).2,
                 stdout := if (DeDuplication lib st.ResultData w.url).1 = true then st.stdout
                           else st.stdout ++ [w.url] })) ∧
    loopBody lib true st w =
      some { seen := w.url :: st.seen, ResultData := st.ResultData,
             stdout := st.stdout ++ [dateLine lib w] } ∧
    (∃ ext ∈ assetSuffixes, ext <:+ str "http://a.com/dasvg") ∧
    (¬ ∃ ext ∈ assetSuffixes, ext <:+ str "http://a.com/logo.SVG") := by
  refine ⟨?_, fun hlen => ⟨asset_iff_ctype w.url, loopBody_asset lib st w hnew hlen,
    loopBody_fingerprint lib st w hnew hlen⟩, loopBody_dates lib st w hnew, ?_, ?_⟩
  · constructor
    · intro hnone
      by_contra hlen
      have hlen3 : 3 ≤ w.url.length := by omega
      by_cases hext : ∃ ext ∈ assetSuffixes, ext <:+ w.url
      · rw [loopBody_asset lib st w hnew hlen3 hext] at hnone
        exact Option.noConfusion hnone
      · rw [loopBody_fingerprint lib st w hnew hlen3 hext] at hnone
        exact Option.noConfusion hnone
    · exact loopBody_short lib st w hnew
  · rw [asset_iff_ctype]
    decide!
  · rw [asset_iff_ctype]
    decide!

/-- Witness of C8 on the model library, from the empty state: the 2-byte URL
`ab` and the empty URL fail, `http://a.com/dasvg` is dropped without touching
the registry, `http://a.com/logo.SVG` is fingerprinted and printed. -/
theorem C8_witness :
    loopBody goLib false { seen := [], ResultData := [], stdout := [] }
      { date := [], url := str "ab" } = none ∧
    loopBody goLib false { seen := [], ResultData := [], stdout := [] }
      { date := [], url := [] } = none ∧
    loopBody goLib false { seen := [], ResultData := [], stdout := [] }
      { date := [], url := str "http://a.com/dasvg" } =
        some { seen := [str "http://a.com/dasvg"], ResultData := [], stdout := [] } ∧
    loopBody goLib false { seen := [], ResultData := [], stdout := [] }
      { date := [], url := str "http://a.com/logo.SVG" } =
        some { seen := [str "http://a.com/logo.SVG"],
               ResultData := [HandleUri goLib (str "http://a.com/logo.SVG")],
               stdout := [str "http://a.com/logo.SVG"] } :=
  have hab := C8_asset_suffix_check goLib { seen := [], ResultData := [], stdout := [] }
    { date := [], url := str "ab" } (by simp)
  have hnil := C8_asset_suffix_check goLib { seen := [], ResultData := [], stdout := [] }
    { date := [], url := [] } (by simp)
  have hsvg := C8_asset_suffix_check goLib { seen := [], ResultData := [], stdout := [] }
    { date := [], url := str "http://a.com/dasvg" } (by simp)
  have hSVG := C8_asset_suffix_check goLib { seen := [], ResultData := [], stdout := [] }
    { date := [], url := str "http://a.com/logo.SVG" } (by simp)
  ⟨hab.1.2 (by decide), hnil.1.2 (by decide), (hsvg.2.1 (by decide)).2.1 hsvg.2.2.2.1,
    ((hSVG.2.1 (by decide)).2.2 hSVG.2.2.2.2).trans (by simp [DeDuplication])⟩

/-- C9. URL parse failure during fingerprinting: for a URL that fails to parse
`HandleUri` returns the empty Data, whose Hash is the empty string;
`DeDuplication` then leaves the registry as it is or appends that Data; and
once it has been called on one unparseable URL, it returns true on every
unparseable URL, also after further calls. -/
theorem C9_parse_failure (lib : Stdlib) (u v : GoString)
    (hu : lib.Parse u = none) (hv : lib.Parse v = none) :
    HandleUri lib u = { Host := [], Path := [], QueryKey := [], Hash := [] } ∧
    (∀ rd : List Data,
      DeDuplication lib rd u = (true, rd) ∨
      DeDuplication lib rd u = (false, rd ++ [{ Host := [], Path := [], QueryKey := [], Hash := [] }])) ∧
    (∀ rd : List Data, (DeDuplication lib (DeDuplication lib rd u).2 v).1 = true) ∧
    (∀ (rd : List Data) (uris : List GoString),
      (DeDuplication lib (afterCalls lib (DeDuplication lib rd u).2 uris) v).1 = true) := by
  have hvu : (HandleUri lib v).Hash = (HandleUri lib u).Hash := by
    rw [HandleUri_of_error lib u hu, HandleUri_of_error lib v hv]
  refine ⟨HandleUri_of_error lib u hu, fun rd => ?_, fun rd => ?_, fun rd uris => ?_⟩
  · unfold DeDuplication
    rw [HandleUri_of_error lib u hu]
    by_cases h : rd.any (fun item => item.Hash == ([] : GoString)) = true
    · left; rw [if_pos h]
    · right; rw [if_neg h]
  · simpa [afterCalls] using duplicate_after lib rd u v [] hvu
  · exact duplicate_after lib rd u v uris hvu

/-- Witness of C9 on the model library: `://x` (no scheme before the colon)
and `http://a b.com/` (a space in the host) do not parse; after the first, the
second is a duplicate. -/
theorem C9_witness :
    goLib.Parse (str "://x") = none ∧ goLib.Parse (str "http://a b.com/") = none ∧
    HandleUri goLib (str "://x") = { Host := [], Path := [], QueryKey := [], Hash := [] } ∧
    (DeDuplication goLib (DeDuplication goLib [] (str "://x")).2 (str "http://a b.com/")).1
      = true :=
  have h := C9_parse_failure goLib (str "://x") (str "http://a b.com/") (by decide!) (by decide!)
  ⟨by decide!, by decide!, h.1, h.2.2.1 []⟩

/-- C10, the claim as stated fails: `http://a.com/x?ab=1` and
`http://a.com/x?a=1&b=2` have the query keys `[ab]` and `[a, b]`, and the same
digest input `a.com/xab`, hence one Hash, and the second is dropped as a
duplicate of the first. -/
theorem C10_counterexample :
    goLib.Parse (str "http://a.com/x?ab=1")
      = some { Host := str "a.com", Path := str "/x", RawQuery := str "ab=1" } ∧
    goLib.Parse (str "http://a.com/x?a=1&b=2")
      = some { Host := str "a.com", Path := str "/x", RawQuery := str "a=1&b=2" } ∧
    (HandleUri goLib (str "http://a.com/x?ab=1")).QueryKey = [str "ab"] ∧
    (HandleUri goLib (str "http://a.com/x?a=1&b=2")).QueryKey = [str "a", str "b"] ∧
    (paramLoop { Host := str "a.com", Path := str "/x", RawQuery := str "ab=1" }).2
      = str "a.com/xab" ∧
    (paramLoop { Host := str "a.com", Path := str "/x", RawQuery := str "a=1&b=2" }).2
      = str "a.com/xab" ∧
    (HandleUri goLib (str "http://a.com/x?ab=1")).Hash
      = (HandleUri goLib (str "http://a.com/x?a=1&b=2")).Hash ∧
    run goLib false [[{ date := [], url := str "http://a.com/x?ab=1" },
                      { date := [], url := str "http://a.com/x?a=1&b=2" }]]
      = some [str "http://a.com/x?ab=1"] := by
  refine ⟨by decide!, by decide!, by decide!, by decide!, by decide!, by decide!, by decide!,
    by decide!⟩

/-- C10, amended. The shape determines the digest input, not conversely: for
two parseable URLs, equal Host, normalized Path and query keys give equal
digest inputs and Hashes; and when Host and normalized Path are equal, the
digest inputs are equal exactly when the concatenations of the query keys
are. -/
theorem C10_digest_input (lib : Stdlib) (u1 u2 : GoString) (a b : URL)
    (h1 : lib.Parse u1 = some a) (h2 : lib.Parse u2 = some b)
    (hHost : (HandleUri lib u1).Host = (HandleUri lib u2).Host)
    (hPath : (HandleUri lib u1).Path = (HandleUri lib u2).Path) :
    ((paramLoop a).2 = (paramLoop b).2 ↔
      (HandleUri lib u1).QueryKey.flatten = (HandleUri lib u2).QueryKey.flatten) ∧
    ((HandleUri lib u1).QueryKey = (HandleUri lib u2).QueryKey →
      (paramLoop a).2 = (paramLoop b).2 ∧
      (HandleUri lib u1).Hash = (HandleUri lib u2).Hash) := by
  rw [HandleUri_of_parse lib u1 a h1, HandleUri_of_parse lib u2 b h2] at hHost hPath
  simp only at hHost hPath
  rw [HandleUri_of_parse lib u1 a h1, HandleUri_of_parse lib u2 b h2]
  simp only
  have hiff : (paramLoop a).2 = (paramLoop b).2 ↔
      (paramLoop a).1.flatten = (paramLoop b).1.flatten := by
    rw [paramLoop_digest a, paramLoop_digest b, hHost, hPath]
    simp
  refine ⟨hiff, fun hk => ?_⟩
  have hd : (paramLoop a).2 = (paramLoop b).2 := hiff.2 (by rw [hk])
  exact ⟨hd, by rw [hd]⟩

/-- Witness of C10 (amended) on the model library: `http://a.com/x?ab=1` and
`http://a.com/x?a=1&b=2` have equal Host and normalized Path and equal key
concatenations, hence equal digest inputs. -/
theorem C10_witness :
    (paramLoop { Host := str "a.com", Path := str "/x", RawQuery := str "ab=1" }).2
      = (paramLoop { Host := str "a.com", Path := str "/x", RawQuery := str "a=1&b=2" }).2 :=
  (C10_digest_input goLib (str "http://a.com/x?ab=1") (str "http://a.com/x?a=1&b=2")
    { Host := str "a.com", Path := str "/x", RawQuery := str "ab=1" }
    { Host := str "a.com", Path := str "/x", RawQuery := str "a=1&b=2" }
    (by decide!) (by decide!) (by decide!) (by decide!)).1.2 (by decide!)

end Waybackurl
